import Mathlib

/-!
Verification of the exchange-rate cache in `src/creational/singleton-pattern.py`
(class `ExchangeRateManager` and its `get_instance`, `get_rate`,
`_update_rates_if_needed` and `_update_rates` methods).

Modelling conventions:
* Python `str` is modelled as `List Char` (`PyStr`); the dictionary key
  `f"{from_currency}_{to_currency}"` is literal concatenation with `'_'`.
* Python `float` values (rates, timestamps) are modelled as `ℚ`, so the
  arithmetic claims are settled in exact rational arithmetic.
* The Python `dict` is modelled as a function `PyStr → Option ℚ` with
  pointwise update (`dictSet`) and defaulted read (`dictGet`), matching
  `d[k] = v` and `d.get(k, default)`.
* `random.uniform(-0.02, 0.02)` is modelled as an oracle stream
  `fs : ℕ → ℚ`; hypotheses restrict its values to the closed interval
  `[-1/50, 1/50]` where a claim depends on the fluctuation bound.
* `time.time()`: a whole `get_rate` call is modelled as happening at one
  instant `now : ℚ`; both time samples during one call return `now`.
* For the concurrency claims a statement-granularity interleaving model of
  `_update_rates_if_needed` (two threads, explicit schedule) and a
  write-granularity model of the `_update_rates` loop body are given below.
-/

/-- Python `str`, modelled as its list of characters. -/
abbrev PyStr := List Char

/-- Key construction `f"{a}_{b}"` used by `get_rate` and `_update_rates`. -/
def mkKey (a b : PyStr) : PyStr := a ++ '_' :: b

/-- Python dict store `d[k] = v`. -/
def dictSet (d : PyStr → Option ℚ) (k : PyStr) (v : ℚ) : PyStr → Option ℚ :=
  fun k' => if k' = k then some v else d k'

/-- Python dict read `d.get(k, default)`. -/
def dictGet (d : PyStr → Option ℚ) (k : PyStr) (default : ℚ) : ℚ :=
  (d k).getD default

/-- The hard-coded `base_rates` dict of `_update_rates` (decimal literals
`0.85`, `0.75`, `110.0`, `0.88`, `129.5`, `146.7` written as rationals),
in source order. -/
def baseRates : List (PyStr × ℚ) :=
  [("USD_EUR".data, 85/100),
   ("USD_GBP".data, 75/100),
   ("USD_JPY".data, 110),
   ("EUR_GBP".data, 88/100),
   ("EUR_JPY".data, 1295/10),
   ("GBP_JPY".data, 1467/10)]

/-- `f"{pair.split('_')[1]}_{pair.split('_')[0]}"`: the reversed key built
inside the `_update_rates` loop.  (`List.getD _ _ []` models the indexing;
it is only ever applied to the concrete keys of `baseRates`, where the
split has exactly two parts.) -/
def revKey (p : PyStr) : PyStr :=
  mkKey ((p.splitOn '_').getD 1 []) ((p.splitOn '_').getD 0 [])

/-- One iteration of the `_update_rates` loop: store the fluctuated forward
rate, then store the reciprocal read back from the just-written entry
(`self._rates[reverse_pair] = 1 / self._rates[pair]`; the read always
succeeds because `pair` was written on the previous line, so the `getD 0`
default is never taken). -/
def updateOnePair (d : PyStr → Option ℚ) (p : PyStr) (rt fv : ℚ) :
    PyStr → Option ℚ :=
  let newRate := rt * (1 + fv)
  let d1 := dictSet d p newRate
  dictSet d1 (revKey p) (1 / ((d1 p).getD 0))

/-- The `for pair, rate in base_rates.items()` loop of `_update_rates`,
consuming one fluctuation from the oracle stream per pair. -/
def updateRatesLoop :
    (PyStr → Option ℚ) → List (PyStr × ℚ) → (ℕ → ℚ) → (PyStr → Option ℚ)
  | d, [], _ => d
  | d, (p, rt) :: rest, fs =>
      updateRatesLoop (updateOnePair d p rt (fs 0)) rest (fun n => fs (n + 1))

/-- Instance state of `ExchangeRateManager`: `self._rates`,
`self._last_updated`, `self._update_interval`. -/
structure ManagerState where
  rates : PyStr → Option ℚ
  lastUpdated : ℚ
  updateInterval : ℚ

/-- `__init__`: empty dict, `_last_updated = 0`, `_update_interval = 3600`. -/
def initState : ManagerState :=
  { rates := fun _ => none, lastUpdated := 0, updateInterval := 3600 }

/-- `_update_rates`, called at instant `t`: runs the loop over `base_rates`
and then sets `self._last_updated = time.time()` (= `t`). -/
def updateRates (s : ManagerState) (fs : ℕ → ℚ) (t : ℚ) : ManagerState :=
  { s with rates := updateRatesLoop s.rates baseRates fs, lastUpdated := t }

/-- `_update_rates_if_needed`: refresh exactly when
`current_time - self._last_updated > self._update_interval`.  There is no
lock and no second check in the source. -/
def updateRatesIfNeeded (s : ManagerState) (now : ℚ) (fs : ℕ → ℚ) :
    ManagerState :=
  if now - s.lastUpdated > s.updateInterval then updateRates s fs now else s

/-- `get_rate`: refresh if needed, then `self._rates.get(key, 1.0)` with
`key = f"{from_currency}_{to_currency}"`.  Returns the rate and the
post-call state. -/
def get_rate (s : ManagerState) (now : ℚ) (fs : ℕ → ℚ) (fromC toC : PyStr) :
    ℚ × ManagerState :=
  let s' := updateRatesIfNeeded s now fs
  (dictGet s'.rates (mkKey fromC toC) 1, s')

/-- The pure table-lookup component of `get_rate` (a read against a fixed
table generation, with the `1.0` default of `.get`). -/
def lookupRate (d : PyStr → Option ℚ) (a b : PyStr) : ℚ :=
  dictGet d (mkKey a b) 1

/-- The twelve keys ever written by `_update_rates` (each base pair and its
reverse, grouped forward/reverse in source pair order). -/
def twelveKeys : List PyStr :=
  ["USD_EUR".data, "EUR_USD".data,
   "USD_GBP".data, "GBP_USD".data,
   "USD_JPY".data, "JPY_USD".data,
   "EUR_GBP".data, "GBP_EUR".data,
   "EUR_JPY".data, "JPY_EUR".data,
   "GBP_JPY".data, "JPY_GBP".data]

/-- Data invariant of the rate table: only the twelve written keys are ever
present, and every stored entry is positive with its reciprocal entry
stored as its exact inverse. -/
def TableInv (d : PyStr → Option ℚ) : Prop :=
  (∀ k, d k ≠ none → k ∈ twelveKeys) ∧
  (∀ a b r, d (mkKey a b) = some r → 0 < r ∧ d (mkKey b a) = some (1 / r))

/-- States of `ExchangeRateManager` reachable from `__init__` by `get_rate`
calls whose fluctuation oracle stays inside `random.uniform(-0.02, 0.02)`'s
range. -/
inductive Reachable : ManagerState → Prop where
  | init : Reachable initState
  | step (s : ManagerState) (now : ℚ) (fs : ℕ → ℚ) (a b : PyStr)
      (hf : ∀ n, -(1/50) ≤ fs n ∧ fs n ≤ 1/50)
      (hs : Reachable s) : Reachable (get_rate s now fs a b).2

/-! Sequential model of `get_instance`.  Python object identity is modelled
by an allocation counter: constructing `cls()` returns the current
`nextId` and bumps it, so two objects are identical iff their ids are
equal.  Calls are modelled as atomic (a sequential sequence of calls). -/

/-- Class-level state of the singleton: `cls._instance` (an object id or
`none` for Python `None`) plus the allocation counter. -/
structure SingletonState where
  instanceSlot : Option ℕ
  nextId : ℕ

/-- Initial class state: `_instance = None`, no object allocated yet. -/
def singletonInit : SingletonState := { instanceSlot := none, nextId := 0 }

/-- `get_instance`: `if not cls._instance` (outer check), `with cls._lock`,
`if not cls._instance` (inner check), `cls._instance = cls()`, then
`return cls._instance`. -/
def getInstance (s : SingletonState) : ℕ × SingletonState :=
  if s.instanceSlot.isNone then
    if s.instanceSlot.isNone then
      let s' : SingletonState :=
        { instanceSlot := some s.nextId, nextId := s.nextId + 1 }
      (s'.instanceSlot.getD 0, s')
    else (s.instanceSlot.getD 0, s)
  else (s.instanceSlot.getD 0, s)

/-- A sequence of `n` successive `get_instance` calls, collecting the
returned object ids and the final class state. -/
def runGetInstance : SingletonState → ℕ → List ℕ × SingletonState
  | s, 0 => ([], s)
  | s, n + 1 =>
      let (r, s') := getInstance s
      let (rs, s'') := runGetInstance s' n
      (r :: rs, s'')

/-! Interleaving model of `_update_rates_if_needed` for two concurrent
callers.  Each caller executes two atomic steps: the staleness check
(reading `self._last_updated`), and — when the check saw staleness — the
whole `_update_rates` call (table rewrite, timestamp write, and an
instrumentation counter for the spec's refresh-count assertion).  The
source contains no lock acquisition and no repeated check between the two
steps, which is exactly what this model exposes. -/

/-- Program counter of one caller inside `_update_rates_if_needed`. -/
inductive RPC where
  | check : RPC
  | refresh : RPC
  | done : RPC

/-- Shared state plus the two callers' program counters.  `refreshCount`
counts completed `_update_rates` calls (the spec's per-stale-window
refresh-count assertion). -/
structure RefreshState where
  rates : PyStr → Option ℚ
  lastUpdated : ℚ
  refreshCount : ℕ
  pc0 : RPC
  pc1 : RPC

/-- One atomic step of one caller: the unguarded staleness check, or the
`_update_rates` body. -/
def stepThread (now interval : ℚ) (fs : ℕ → ℚ) (pc : RPC) (s : RefreshState) :
    RPC × RefreshState :=
  match pc with
  | RPC.check =>
      if now - s.lastUpdated > interval then (RPC.refresh, s) else (RPC.done, s)
  | RPC.refresh =>
      (RPC.done,
       { s with rates := updateRatesLoop s.rates baseRates fs,
                lastUpdated := now,
                refreshCount := s.refreshCount + 1 })
  | RPC.done => (RPC.done, s)

/-- Run the scheduled caller (`false` = caller 0, `true` = caller 1) for
one atomic step. -/
def schedStep (now interval : ℚ) (fs : ℕ → ℚ) (s : RefreshState) (t : Bool) :
    RefreshState :=
  if t then
    let (pc', s') := stepThread now interval fs s.pc1 s
    { s' with pc1 := pc' }
  else
    let (pc', s') := stepThread now interval fs s.pc0 s
    { s' with pc0 := pc' }

/-- Run a whole interleaving schedule. -/
def runSched (now interval : ℚ) (fs : ℕ → ℚ) :
    RefreshState → List Bool → RefreshState
  | s, [] => s
  | s, t :: ts => runSched now interval fs (schedStep now interval fs s t) ts

/-! Write-granularity model of the `_update_rates` loop: the exact sequence
of dict stores it performs against the live table, in program order. -/

/-- The two stores one loop iteration performs: the forward entry, then the
reciprocal entry. -/
def pairWrites (p : PyStr) (rt fv : ℚ) : List (PyStr × ℚ) :=
  let newRate := rt * (1 + fv)
  [(p, newRate), (revKey p, 1 / newRate)]

/-- Full program-order write sequence of the `_update_rates` loop. -/
def writeSeqLoop : List (PyStr × ℚ) → (ℕ → ℚ) → List (PyStr × ℚ)
  | [], _ => []
  | (p, rt) :: rest, fs =>
      pairWrites p rt (fs 0) ++ writeSeqLoop rest (fun n => fs (n + 1))

/-- Apply a prefix of the write sequence to the live table (the table a
reader sees mid-refresh after that many stores). -/
def applyWrites : (PyStr → Option ℚ) → List (PyStr × ℚ) → (PyStr → Option ℚ)
  | d, [] => d
  | d, (k, v) :: rest => applyWrites (dictSet d k v) rest

/-- Counting occurrences of the separator in a built key. -/
lemma mkKey_count (a b : PyStr) :
    (mkKey a b).count '_' = a.count '_' + b.count '_' + 1 := by
  simp [mkKey, List.count_append, List.count_cons_self]
  omega

/-- Splitting around a unique separator occurrence is unambiguous. -/
lemma split_unique (a : PyStr) : ∀ (c b e : PyStr), '_' ∉ a → '_' ∉ c →
    a ++ '_' :: b = c ++ '_' :: e → a = c ∧ b = e := by
  induction a with
  | nil =>
    intro c b e _ hc h
    cases c with
    | nil => simp at h; exact ⟨rfl, h⟩
    | cons y ys =>
      simp only [List.nil_append, List.cons_append, List.cons.injEq] at h
      exact absurd (List.mem_cons_self y ys) (h.1 ▸ hc)
  | cons x xs ih =>
    intro c b e ha hc h
    cases c with
    | nil =>
      simp only [List.cons_append, List.nil_append, List.cons.injEq] at h
      exact absurd (List.mem_cons_self x xs) (h.1 ▸ ha)
    | cons y ys =>
      simp only [List.cons_append, List.cons.injEq] at h
      obtain ⟨rfl, h2⟩ := h
      have ha' : '_' ∉ xs := fun hm => ha (List.mem_cons_of_mem _ hm)
      have hc' : '_' ∉ ys := fun hm => hc (List.mem_cons_of_mem _ hm)
      obtain ⟨rfl, rfl⟩ := ih ys b e ha' hc' h2
      exact ⟨rfl, rfl⟩

/-- A key built from two separator-free parts determines those parts. -/
lemma mkKey_inj (c e : PyStr) (hc : '_' ∉ c) (he : '_' ∉ e) (a b : PyStr)
    (h : mkKey a b = mkKey c e) : a = c ∧ b = e := by
  have ha : '_' ∉ a := by
    intro hmem
    have hcnt := congrArg (fun l => l.count '_') h
    simp only [mkKey_count] at hcnt
    have h1 : ¬ a.count '_' = 0 := fun h0 => (List.count_eq_zero.mp h0) hmem
    have h2 : c.count '_' = 0 := List.count_eq_zero.mpr hc
    have h3 : e.count '_' = 0 := List.count_eq_zero.mpr he
    omega
  exact split_unique a c b e ha hc h

/-- A diagonal key `X_X` never coincides with a key built from two distinct
separator-free parts. -/
lemma diag_case (A B X : PyStr) (hne : ¬ (A = B)) (hA : '_' ∉ A)
    (hB : '_' ∉ B) (h : mkKey X X = mkKey A B) : False :=
  hne ((mkKey_inj A B hA hB X X h).1.symm.trans (mkKey_inj A B hA hB X X h).2)

/-- Keys of the form `X_X` are never among the written keys. -/
lemma diag_not_mem (X : PyStr) : mkKey X X ∉ twelveKeys := by
  intro h
  simp only [twelveKeys, List.mem_cons, List.not_mem_nil, or_false] at h
  rcases h with h|h|h|h|h|h|h|h|h|h|h|h
  · exact diag_case ("USD".data) ("EUR".data) X (by decide) (by decide) (by decide) h
  · exact diag_case ("EUR".data) ("USD".data) X (by decide) (by decide) (by decide) h
  · exact diag_case ("USD".data) ("GBP".data) X (by decide) (by decide) (by decide) h
  · exact diag_case ("GBP".data) ("USD".data) X (by decide) (by decide) (by decide) h
  · exact diag_case ("USD".data) ("JPY".data) X (by decide) (by decide) (by decide) h
  · exact diag_case ("JPY".data) ("USD".data) X (by decide) (by decide) (by decide) h
  · exact diag_case ("EUR".data) ("GBP".data) X (by decide) (by decide) (by decide) h
  · exact diag_case ("GBP".data) ("EUR".data) X (by decide) (by decide) (by decide) h
  · exact diag_case ("EUR".data) ("JPY".data) X (by decide) (by decide) (by decide) h
  · exact diag_case ("JPY".data) ("EUR".data) X (by decide) (by decide) (by decide) h
  · exact diag_case ("GBP".data) ("JPY".data) X (by decide) (by decide) (by decide) h
  · exact diag_case ("JPY".data) ("GBP".data) X (by decide) (by decide) (by decide) h

/-- A loop iteration leaves every key other than the forward and reverse
keys of its pair unchanged. -/
lemma updateOnePair_other (d : PyStr → Option ℚ) (p : PyStr) (rt fv : ℚ)
    (k : PyStr) (h1 : ¬ k = p) (h2 : ¬ k = revKey p) :
    updateOnePair d p rt fv k = d k := by
  simp [updateOnePair, dictSet, h1, h2]

/-- A full refresh leaves every key outside the twelve written keys
unchanged. -/
lemma updateRatesLoop_other (d : PyStr → Option ℚ) (fs : ℕ → ℚ) (k : PyStr)
    (hk : k ∉ twelveKeys) : updateRatesLoop d baseRates fs k = d k := by
  simp only [twelveKeys, List.mem_cons, List.not_mem_nil, or_false, not_or] at hk
  obtain ⟨h1, h2, h3, h4, h5, h6, h7, h8, h9, h10, h11, h12⟩ := hk
  show updateOnePair (updateOnePair (updateOnePair (updateOnePair (updateOnePair (updateOnePair d
      ("USD_EUR".data) (85/100) (fs 0)) ("USD_GBP".data) (75/100) (fs 1)) ("USD_JPY".data) 110 (fs 2))
      ("EUR_GBP".data) (88/100) (fs 3)) ("EUR_JPY".data) (1295/10) (fs 4)) ("GBP_JPY".data) (1467/10) (fs 5) k = d k
  rw [updateOnePair_other _ _ _ _ _ h11 h12, updateOnePair_other _ _ _ _ _ h9 h10,
      updateOnePair_other _ _ _ _ _ h7 h8, updateOnePair_other _ _ _ _ _ h5 h6,
      updateOnePair_other _ _ _ _ _ h3 h4, updateOnePair_other _ _ _ _ _ h1 h2]

/-- A fluctuated rate stays positive when the fluctuation is within the
`random.uniform(-0.02, 0.02)` range and the base rate is positive. -/
lemma rate_pos (q fv : ℚ) (hq : 0 < q) (hfv : -(1/50) ≤ fv ∧ fv ≤ 1/50) :
    0 < q * (1 + fv) := by
  have h1 : (0:ℚ) < 1 + fv := by linarith [hfv.1]
  exact mul_pos hq h1

/-- Forward-key case of the post-refresh reciprocal property. -/
lemma refresh_pair_fwd (d : PyStr → Option ℚ) (fs : ℕ → ℚ) (A B : PyStr)
    (q fv : ℚ) (hA : '_' ∉ A) (hB : '_' ∉ B) (hq : 0 < q)
    (hfv : -(1/50) ≤ fv ∧ fv ≤ 1/50)
    (hfwd : updateRatesLoop d baseRates fs (mkKey A B) = some (q * (1 + fv)))
    (hrev : updateRatesLoop d baseRates fs (mkKey B A) = some (1 / (q * (1 + fv))))
    (a b : PyStr) (hk : mkKey a b = mkKey A B) (r : ℚ)
    (hr : updateRatesLoop d baseRates fs (mkKey a b) = some r) :
    0 < r ∧ updateRatesLoop d baseRates fs (mkKey b a) = some (1 / r) := by
  obtain ⟨rfl, rfl⟩ := mkKey_inj A B hA hB a b hk
  rw [hfwd] at hr
  obtain rfl := (Option.some.injEq _ _).mp hr
  exact ⟨rate_pos q fv hq hfv, hrev⟩

/-- Reverse-key case of the post-refresh reciprocal property. -/
lemma refresh_pair_rev (d : PyStr → Option ℚ) (fs : ℕ → ℚ) (A B : PyStr)
    (q fv : ℚ) (hA : '_' ∉ A) (hB : '_' ∉ B) (hq : 0 < q)
    (hfv : -(1/50) ≤ fv ∧ fv ≤ 1/50)
    (hfwd : updateRatesLoop d baseRates fs (mkKey A B) = some (q * (1 + fv)))
    (hrev : updateRatesLoop d baseRates fs (mkKey B A) = some (1 / (q * (1 + fv))))
    (a b : PyStr) (hk : mkKey a b = mkKey B A) (r : ℚ)
    (hr : updateRatesLoop d baseRates fs (mkKey a b) = some r) :
    0 < r ∧ updateRatesLoop d baseRates fs (mkKey b a) = some (1 / r) := by
  obtain ⟨rfl, rfl⟩ := mkKey_inj B A hB hA a b hk
  rw [hrev] at hr
  obtain rfl := (Option.some.injEq _ _).mp hr
  refine ⟨one_div_pos.mpr (rate_pos q fv hq hfv), ?_⟩
  rw [one_div_one_div]
  exact hfwd

/-- After a full refresh, every stored entry is positive and reciprocally
paired (`_update_rates` stores `rate * (1 + fluctuation)` and then its
exact inverse for the reversed key, for each of the six base pairs). -/
lemma refresh_reciprocal (d : PyStr → Option ℚ) (fs : ℕ → ℚ)
    (hsupp : ∀ k, d k ≠ none → k ∈ twelveKeys)
    (hf : ∀ n, -(1/50) ≤ fs n ∧ fs n ≤ 1/50) :
    ∀ a b r, updateRatesLoop d baseRates fs (mkKey a b) = some r →
      0 < r ∧ updateRatesLoop d baseRates fs (mkKey b a) = some (1 / r) := by
  intro a b r hr
  by_cases hmem : mkKey a b ∈ twelveKeys
  · simp only [twelveKeys, List.mem_cons, List.not_mem_nil, or_false] at hmem
    rcases hmem with h|h|h|h|h|h|h|h|h|h|h|h
    · exact refresh_pair_fwd d fs ("USD".data) ("EUR".data) (85/100) (fs 0) (by decide) (by decide) (by norm_num) (hf 0) rfl rfl a b h r hr
    · exact refresh_pair_rev d fs ("USD".data) ("EUR".data) (85/100) (fs 0) (by decide) (by decide) (by norm_num) (hf 0) rfl rfl a b h r hr
    · exact refresh_pair_fwd d fs ("USD".data) ("GBP".data) (75/100) (fs 1) (by decide) (by decide) (by norm_num) (hf 1) rfl rfl a b h r hr
    · exact refresh_pair_rev d fs ("USD".data) ("GBP".data) (75/100) (fs 1) (by decide) (by decide) (by norm_num) (hf 1) rfl rfl a b h r hr
    · exact refresh_pair_fwd d fs ("USD".data) ("JPY".data) 110 (fs 2) (by decide) (by decide) (by norm_num) (hf 2) rfl rfl a b h r hr
    · exact refresh_pair_rev d fs ("USD".data) ("JPY".data) 110 (fs 2) (by decide) (by decide) (by norm_num) (hf 2) rfl rfl a b h r hr
    · exact refresh_pair_fwd d fs ("EUR".data) ("GBP".data) (88/100) (fs 3) (by decide) (by decide) (by norm_num) (hf 3) rfl rfl a b h r hr
    · exact refresh_pair_rev d fs ("EUR".data) ("GBP".data) (88/100) (fs 3) (by decide) (by decide) (by norm_num) (hf 3) rfl rfl a b h r hr
    · exact refresh_pair_fwd d fs ("EUR".data) ("JPY".data) (1295/10) (fs 4) (by decide) (by decide) (by norm_num) (hf 4) rfl rfl a b h r hr
    · exact refresh_pair_rev d fs ("EUR".data) ("JPY".data) (1295/10) (fs 4) (by decide) (by decide) (by norm_num) (hf 4) rfl rfl a b h r hr
    · exact refresh_pair_fwd d fs ("GBP".data) ("JPY".data) (1467/10) (fs 5) (by decide) (by decide) (by norm_num) (hf 5) rfl rfl a b h r hr
    · exact refresh_pair_rev d fs ("GBP".data) ("JPY".data) (1467/10) (fs 5) (by decide) (by decide) (by norm_num) (hf 5) rfl rfl a b h r hr
  · rw [updateRatesLoop_other d fs _ hmem] at hr
    have hmem' := hsupp _ (by rw [hr]; simp)
    exact absurd hmem' hmem

/-- A full refresh writes only the twelve keys, so the support stays inside
them. -/
lemma refresh_support (d : PyStr → Option ℚ) (fs : ℕ → ℚ)
    (hsupp : ∀ k, d k ≠ none → k ∈ twelveKeys) :
    ∀ k, updateRatesLoop d baseRates fs k ≠ none → k ∈ twelveKeys := by
  intro k hk
  by_cases hmem : k ∈ twelveKeys
  · exact hmem
  · rw [updateRatesLoop_other d fs k hmem] at hk
    exact hsupp k hk

/-- Every reachable manager state satisfies the table invariant. -/
lemma reachable_inv (s : ManagerState) (hs : Reachable s) : TableInv s.rates := by
  induction hs with
  | init =>
    constructor
    · intro k hk
      exact absurd rfl hk
    · intro a b r h
      exact absurd h (by simp [initState])
  | step s now fs a b hf hs ih =>
    show TableInv (updateRatesIfNeeded s now fs).rates
    rw [updateRatesIfNeeded]
    by_cases hstale : now - s.lastUpdated > s.updateInterval
    · rw [if_pos hstale]
      exact ⟨refresh_support s.rates fs ih.1, refresh_reciprocal s.rates fs ih.1 hf⟩
    · rw [if_neg hstale]
      exact ih

/-- Reachable states keep the constructor-supplied refresh interval. -/
lemma reachable_interval (s : ManagerState) (hs : Reachable s) :
    s.updateInterval = 3600 := by
  induction hs with
  | init => rfl
  | step s now fs a b hf hs ih =>
    show (updateRatesIfNeeded s now fs).updateInterval = 3600
    rw [updateRatesIfNeeded]
    by_cases hstale : now - s.lastUpdated > s.updateInterval
    · rw [if_pos hstale]; exact ih
    · rw [if_neg hstale]; exact ih

/-- On the cold-start input used below, the staleness check fires. -/
lemma coldRefresh (fs : ℕ → ℚ) :
    updateRatesIfNeeded initState 4000 fs = updateRates initState fs 4000 := by
  rw [updateRatesIfNeeded,
      if_pos (by norm_num [initState] :
        (4000:ℚ) - initState.lastUpdated > initState.updateInterval)]

/-- C4: reciprocal consistency over reachable states. -/
theorem C4_reciprocal_consistency (s : ManagerState) (hs : Reachable s)
    (a b : PyStr) (r : ℚ) (h : s.rates (mkKey a b) = some r) :
    s.rates (mkKey b a) = some (1 / r) ∧ r * (1 / r) = 1 := by
  obtain ⟨hpos, hrev⟩ := (reachable_inv s hs).2 a b r h
  exact ⟨hrev, mul_one_div_cancel hpos.ne'⟩

theorem C4_witness :
    (get_rate initState 4000 (fun _ => 0) ("USD".data) ("EUR".data)).2.rates
        (mkKey ("EUR".data) ("USD".data)) = some (1 / (17/20)) ∧
    (17/20 : ℚ) * (1 / (17/20)) = 1 :=
  C4_reciprocal_consistency _
    (Reachable.step initState 4000 (fun _ => 0) ("USD".data) ("EUR".data)
      (by intro n; constructor <;> norm_num) Reachable.init)
    ("USD".data) ("EUR".data) (17/20)
    (by
      show (updateRatesIfNeeded initState 4000 (fun _ => 0)).rates
          (mkKey ("USD".data) ("EUR".data)) = some (17/20)
      rw [coldRefresh]
      have hv : (updateRates initState (fun _ => 0) 4000).rates
          (mkKey ("USD".data) ("EUR".data)) = some ((85/100) * (1 + (0:ℚ))) := rfl
      rw [hv]; norm_num)

/-- Bound on the deviation introduced by a fluctuation in range. -/
lemma fluct_bound (q fv : ℚ) (hq : 0 ≤ q) (h1 : -(1/50) ≤ fv)
    (h2 : fv ≤ 1/50) : |q * (1 + fv) - q| ≤ (1/50) * q := by
  have h3 : q * (1 + fv) - q = q * fv := by ring
  rw [h3, abs_mul, abs_of_nonneg hq]
  have h4 : |fv| ≤ 1/50 := abs_le.mpr ⟨h1, h2⟩
  calc q * |fv| ≤ q * (1/50) := mul_le_mul_of_nonneg_left h4 hq
    _ = (1/50) * q := mul_comm q (1/50)

/-- C5: each refresh stores `baseRate * (1 + fluctuation)` with the
fluctuation drawn from the interval, hence within two percent. -/
theorem C5_refresh_rate_bound (d : PyStr → Option ℚ) (fs : ℕ → ℚ)
    (hf : ∀ n, -(1/50) ≤ fs n ∧ fs n ≤ 1/50) :
    ∀ p ∈ baseRates, ∃ fv, (-(1/50) ≤ fv ∧ fv ≤ 1/50) ∧
      updateRatesLoop d baseRates fs p.1 = some (p.2 * (1 + fv)) ∧
      |p.2 * (1 + fv) - p.2| ≤ (1/50) * p.2 := by
  intro p hp
  simp only [baseRates, List.mem_cons, List.not_mem_nil, or_false] at hp
  rcases hp with rfl|rfl|rfl|rfl|rfl|rfl
  · exact ⟨fs 0, hf 0, rfl, fluct_bound (85/100) (fs 0) (by norm_num) (hf 0).1 (hf 0).2⟩
  · exact ⟨fs 1, hf 1, rfl, fluct_bound (75/100) (fs 1) (by norm_num) (hf 1).1 (hf 1).2⟩
  · exact ⟨fs 2, hf 2, rfl, fluct_bound 110 (fs 2) (by norm_num) (hf 2).1 (hf 2).2⟩
  · exact ⟨fs 3, hf 3, rfl, fluct_bound (88/100) (fs 3) (by norm_num) (hf 3).1 (hf 3).2⟩
  · exact ⟨fs 4, hf 4, rfl, fluct_bound (1295/10) (fs 4) (by norm_num) (hf 4).1 (hf 4).2⟩
  · exact ⟨fs 5, hf 5, rfl, fluct_bound (1467/10) (fs 5) (by norm_num) (hf 5).1 (hf 5).2⟩

theorem C5_witness :
    ∃ fv, (-(1/50:ℚ) ≤ fv ∧ fv ≤ 1/50) ∧
      updateRatesLoop (fun _ => none) baseRates (fun _ => 1/100) ("USD_EUR".data)
        = some ((85/100) * (1 + fv)) ∧
      |(85/100) * (1 + fv) - 85/100| ≤ (1/50) * ((85:ℚ)/100) :=
  C5_refresh_rate_bound (fun _ => none) (fun _ => 1/100)
    (by intro n; constructor <;> norm_num) ("USD_EUR".data, 85/100)
    (by simp [baseRates])

/-- C6: after any `get_rate` call the timestamp is within the interval. -/
theorem C6_staleness_bound (s : ManagerState) (now : ℚ) (fs : ℕ → ℚ)
    (a b : PyStr) (h : 0 ≤ s.updateInterval) :
    now - (get_rate s now fs a b).2.lastUpdated ≤ s.updateInterval := by
  show now - (updateRatesIfNeeded s now fs).lastUpdated ≤ s.updateInterval
  rw [updateRatesIfNeeded]
  by_cases hst : now - s.lastUpdated > s.updateInterval
  · rw [if_pos hst]
    show now - now ≤ s.updateInterval
    simpa using h
  · rw [if_neg hst]
    exact le_of_not_lt hst

theorem C6_witness :
    (0:ℚ) ≤ initState.updateInterval ∧
    4000 - (get_rate initState 4000 (fun _ => 0) ("USD".data) ("EUR".data)).2.lastUpdated
      ≤ initState.updateInterval :=
  ⟨by norm_num [initState],
   C6_staleness_bound initState 4000 (fun _ => 0) ("USD".data) ("EUR".data)
     (by norm_num [initState])⟩

/-- C8: any key absent after the refresh step yields the `1.0` default. -/
theorem C8_default_for_absent (s : ManagerState) (now : ℚ) (fs : ℕ → ℚ)
    (a b : PyStr)
    (h : (updateRatesIfNeeded s now fs).rates (mkKey a b) = none) :
    (get_rate s now fs a b).1 = 1 := by
  show dictGet (updateRatesIfNeeded s now fs).rates (mkKey a b) 1 = 1
  unfold dictGet
  rw [h]
  rfl

theorem C8_witness :
    (updateRatesIfNeeded initState 4000 (fun _ => 0)).rates
        (mkKey ("AAA".data) ("BBB".data)) = none ∧
    (get_rate initState 4000 (fun _ => 0) ("AAA".data) ("BBB".data)).1 = 1 :=
  ⟨by rw [coldRefresh]; exact rfl, C8_default_for_absent initState 4000 (fun _ => 0)
      ("AAA".data) ("BBB".data) (by rw [coldRefresh]; exact rfl)⟩

/-- C7 counterexample: a cold-start `get_rate("USD","USD")` call does
return `1.0`, but it consults the table and triggers a full refresh (the
table is populated and the timestamp reset afterwards), contradicting
"without consulting the table and therefore without triggering a
refresh". -/
theorem C7_counterexample :
    (get_rate initState 4000 (fun _ => 0) ("USD".data) ("USD".data)).1 = 1 ∧
    (get_rate initState 4000 (fun _ => 0) ("USD".data) ("USD".data)).2.rates
        (mkKey ("USD".data) ("EUR".data)) = some (17/20) ∧
    (get_rate initState 4000 (fun _ => 0) ("USD".data) ("USD".data)).2.lastUpdated = 4000 := by
  refine ⟨?_, ?_, ?_⟩
  · show dictGet (updateRatesIfNeeded initState 4000 (fun _ => 0)).rates
        (mkKey ("USD".data) ("USD".data)) 1 = 1
    rw [coldRefresh]
    exact rfl
  · show (updateRatesIfNeeded initState 4000 (fun _ => 0)).rates
        (mkKey ("USD".data) ("EUR".data)) = some (17/20)
    rw [coldRefresh]
    have hv : (updateRates initState (fun _ => 0) 4000).rates
        (mkKey ("USD".data) ("EUR".data)) = some ((85/100) * (1 + (0:ℚ))) := rfl
    rw [hv]; norm_num
  · show (updateRatesIfNeeded initState 4000 (fun _ => 0)).lastUpdated = 4000
    rw [coldRefresh]
    rfl

/-- C7 amended: `get_rate(X, X)` always returns `1.0` in every reachable
state — not through a special case, but because a key of the form `X_X`
can never be stored; the call still performs the staleness check and may
refresh. -/
theorem C7_identity_by_absence (s : ManagerState) (hs : Reachable s)
    (now : ℚ) (fs : ℕ → ℚ) (hf : ∀ n, -(1/50) ≤ fs n ∧ fs n ≤ 1/50)
    (X : PyStr) : (get_rate s now fs X X).1 = 1 := by
  have hs' : Reachable (get_rate s now fs X X).2 :=
    Reachable.step s now fs X X hf hs
  have hinv := reachable_inv _ hs'
  have hnone : (updateRatesIfNeeded s now fs).rates (mkKey X X) = none := by
    cases hcase : (updateRatesIfNeeded s now fs).rates (mkKey X X) with
    | none => rfl
    | some r =>
      have hmem := hinv.1 (mkKey X X) (by
        show (updateRatesIfNeeded s now fs).rates (mkKey X X) ≠ none
        rw [hcase]; simp)
      exact absurd hmem (diag_not_mem X)
  show dictGet (updateRatesIfNeeded s now fs).rates (mkKey X X) 1 = 1
  unfold dictGet
  rw [hnone]
  rfl

theorem C7_witness :
    (get_rate initState 4000 (fun _ => 0) ("JPY".data) ("JPY".data)).1 = 1 :=
  C7_identity_by_absence initState Reachable.init 4000 (fun _ => 0)
    (by intro n; constructor <;> norm_num) ("JPY".data)

/-- C9 counterexample: in the state produced by the first refresh, looking
up the same letters in lower case gives a different rate than in upper
case, refuting case-insensitivity. -/
theorem C9_counterexample :
    lookupRate (get_rate initState 4000 (fun _ => 0) ("USD".data) ("EUR".data)).2.rates
        ("usd".data) ("eur".data) ≠
    lookupRate (get_rate initState 4000 (fun _ => 0) ("USD".data) ("EUR".data)).2.rates
        ("USD".data) ("EUR".data) := by
  show lookupRate (updateRatesIfNeeded initState 4000 (fun _ => 0)).rates
      ("usd".data) ("eur".data) ≠
    lookupRate (updateRatesIfNeeded initState 4000 (fun _ => 0)).rates
      ("USD".data) ("EUR".data)
  rw [coldRefresh]
  have h2 : lookupRate (updateRates initState (fun _ => 0) 4000).rates
      ("usd".data) ("eur".data) = 1 := rfl
  have h3 : lookupRate (updateRates initState (fun _ => 0) 4000).rates
      ("USD".data) ("EUR".data) = (85/100) * (1 + 0) := rfl
  rw [h2, h3]; norm_num

/-- C9 amended: `get_rate` matches currency codes case-sensitively; codes
whose case differs from the stored upper-case keys miss the table and fall
back to the `1.0` default, while the upper-case spelling returns the
stored rate. -/
theorem C9_case_sensitive (fs fs' fs'' : ℕ → ℚ) :
    (get_rate ((get_rate initState 4000 fs ("USD".data) ("EUR".data)).2) 4000 fs'
        ("usd".data) ("eur".data)).1 = 1 ∧
    (get_rate ((get_rate initState 4000 fs ("USD".data) ("EUR".data)).2) 4000 fs''
        ("USD".data) ("EUR".data)).1 = (85/100) * (1 + fs 0) := by
  have hfresh : ¬ ((4000:ℚ) - (updateRates initState fs 4000).lastUpdated >
      (updateRates initState fs 4000).updateInterval) := by
    norm_num [updateRates, initState]
  constructor
  · show dictGet (updateRatesIfNeeded (updateRatesIfNeeded initState 4000 fs) 4000 fs').rates
        (mkKey ("usd".data) ("eur".data)) 1 = 1
    rw [coldRefresh, updateRatesIfNeeded, if_neg hfresh]
    exact rfl
  · show dictGet (updateRatesIfNeeded (updateRatesIfNeeded initState 4000 fs) 4000 fs'').rates
        (mkKey ("USD".data) ("EUR".data)) 1 = (85/100) * (1 + fs 0)
    rw [coldRefresh, updateRatesIfNeeded, if_neg hfresh]
    exact rfl

/-- C10: within one table generation (no refresh fires during either
call), the product of the two directed rates is exactly `1`: stored keys
come in exact reciprocal pairs, and absent pairs both return the `1.0`
default. -/
theorem C10_reciprocal_product (s : ManagerState) (hs : Reachable s)
    (now : ℚ) (fs fs' : ℕ → ℚ)
    (hfresh : ¬ (now - s.lastUpdated > s.updateInterval)) (a b : PyStr) :
    (get_rate s now fs a b).1 * (get_rate s now fs' b a).1 = 1 := by
  have h1 : updateRatesIfNeeded s now fs = s := by
    rw [updateRatesIfNeeded, if_neg hfresh]
  have h1' : updateRatesIfNeeded s now fs' = s := by
    rw [updateRatesIfNeeded, if_neg hfresh]
  show dictGet (updateRatesIfNeeded s now fs).rates (mkKey a b) 1 *
      dictGet (updateRatesIfNeeded s now fs').rates (mkKey b a) 1 = 1
  rw [h1, h1']
  obtain ⟨hsupp, hrec⟩ := reachable_inv s hs
  cases hab : s.rates (mkKey a b) with
  | some r =>
    obtain ⟨hpos, hrev⟩ := hrec a b r hab
    unfold dictGet
    rw [hab, hrev]
    show r * (1 / r) = 1
    exact mul_one_div_cancel hpos.ne'
  | none =>
    have hba : s.rates (mkKey b a) = none := by
      cases hba' : s.rates (mkKey b a) with
      | none => rfl
      | some r' =>
        obtain ⟨_, hrev'⟩ := hrec b a r' hba'
        rw [hab] at hrev'
        exact absurd hrev' (by simp)
    unfold dictGet
    rw [hab, hba]
    norm_num

theorem C10_witness :
    ¬ ((4000:ℚ) - (get_rate initState 4000 (fun _ => 0) ("USD".data) ("EUR".data)).2.lastUpdated >
        (get_rate initState 4000 (fun _ => 0) ("USD".data) ("EUR".data)).2.updateInterval) ∧
    (get_rate ((get_rate initState 4000 (fun _ => 0) ("USD".data) ("EUR".data)).2) 4000 (fun _ => 0)
        ("USD".data) ("EUR".data)).1 *
    (get_rate ((get_rate initState 4000 (fun _ => 0) ("USD".data) ("EUR".data)).2) 4000 (fun _ => 0)
        ("EUR".data) ("USD".data)).1 = 1 := by
  have hfresh : ¬ ((4000:ℚ) - (get_rate initState 4000 (fun _ => 0) ("USD".data) ("EUR".data)).2.lastUpdated >
      (get_rate initState 4000 (fun _ => 0) ("USD".data) ("EUR".data)).2.updateInterval) := by
    show ¬ ((4000:ℚ) - (updateRatesIfNeeded initState 4000 (fun _ => 0)).lastUpdated >
        (updateRatesIfNeeded initState 4000 (fun _ => 0)).updateInterval)
    rw [coldRefresh]
    norm_num [updateRates, initState]
  exact ⟨hfresh,
    C10_reciprocal_product _
      (Reachable.step initState 4000 (fun _ => 0) ("USD".data) ("EUR".data)
        (by intro n; constructor <;> norm_num) Reachable.init)
      4000 (fun _ => 0) (fun _ => 0) hfresh ("USD".data) ("EUR".data)⟩

/-- Once the slot is filled, `get_instance` returns the stored id and
leaves the class state unchanged. -/
lemma getInstance_filled (i m : ℕ) :
    getInstance ⟨some i, m⟩ = (i, ⟨some i, m⟩) := rfl

/-- Repeated calls on a filled slot return the stored id every time. -/
lemma runGetInstance_filled (i m : ℕ) (n : ℕ) :
    runGetInstance ⟨some i, m⟩ n = (List.replicate n i, ⟨some i, m⟩) := by
  induction n with
  | zero => rfl
  | succ k ih => simp [runGetInstance, getInstance_filled, ih, List.replicate_succ]

/-- C1: for any positive number of `get_instance` calls from the fresh
class state, every returned reference is the object constructed on the
first call, and the final class state shows the slot filled once and a
single construction (allocation counter 1). -/
theorem C1_singleton_identity (n : ℕ) (h : 1 ≤ n) :
    (∀ r ∈ (runGetInstance singletonInit n).1, r = 0) ∧
    (runGetInstance singletonInit n).2 = ⟨some 0, 1⟩ := by
  obtain ⟨m, rfl⟩ : ∃ m, n = m + 1 := ⟨n - 1, by omega⟩
  have hstep : runGetInstance singletonInit (m + 1)
      = (0 :: List.replicate m 0, ⟨some 0, 1⟩) := by
    have hfirst : getInstance singletonInit = (0, ⟨some 0, 1⟩) := rfl
    simp [runGetInstance, hfirst, runGetInstance_filled]
  constructor
  · intro r hr
    rw [hstep] at hr
    rcases List.mem_cons.mp hr with h0 | h0
    · exact h0
    · exact List.eq_of_mem_replicate h0
  · rw [hstep]

theorem C1_witness :
    (∀ r ∈ (runGetInstance singletonInit 3).1, r = 0) ∧
    (runGetInstance singletonInit 3).2 = ⟨some 0, 1⟩ :=
  C1_singleton_identity 3 (by norm_num)

/-- C2 counterexample: with two concurrent callers in one stale window
(last refresh at time 0, call at time 4000, interval 3600), the
interleaving check0-check1-refresh0-refresh1 — which the source permits
because the staleness check is neither locked nor repeated — performs two
refreshes, not exactly one. -/
theorem C2_counterexample :
    (runSched 4000 3600 (fun _ => 0)
      ⟨fun _ => none, 0, 0, RPC.check, RPC.check⟩
      [false, true, false, true]).refreshCount = 2 := by
  simp [runSched, schedStep, stepThread, show (3600:ℚ) < 4000 from by norm_num]

/-- C2 amended: the staleness check is performed once, without any lock
and without being repeated, and a caller that saw staleness refreshes
unconditionally; hence a single stale caller performs exactly one refresh,
while concurrent stale callers may each perform one. -/
theorem C2_single_caller_refresh (now interval last : ℚ) (c : ℕ)
    (d : PyStr → Option ℚ) (fs : ℕ → ℚ) (h : now - last > interval) :
    (runSched now interval fs ⟨d, last, c, RPC.check, RPC.done⟩
      [false, false]).refreshCount = c + 1 := by
  simp [runSched, schedStep, stepThread, h]

theorem C2_witness :
    (runSched 4000 3600 (fun _ => 0)
      ⟨fun _ => none, 0, 0, RPC.check, RPC.done⟩
      [false, false]).refreshCount = 0 + 1 :=
  C2_single_caller_refresh 4000 3600 0 0 (fun _ => none) (fun _ => 0)
    (by norm_num)

/-- Applying a concatenation of write sequences is sequential
composition. -/
lemma applyWrites_append (w1 : List (PyStr × ℚ)) :
    ∀ (d : PyStr → Option ℚ) (w2 : List (PyStr × ℚ)),
      applyWrites d (w1 ++ w2) = applyWrites (applyWrites d w1) w2 := by
  induction w1 with
  | nil => intro d w2; rfl
  | cons kv rest ih =>
    intro d w2
    cases kv with
    | mk k v => simp [applyWrites, List.cons_append, ih]

/-- One loop iteration equals its two program-order stores. -/
lemma updateOnePair_as_writes (d : PyStr → Option ℚ) (p : PyStr)
    (rt fv : ℚ) :
    updateOnePair d p rt fv = applyWrites d (pairWrites p rt fv) := by
  have h : (dictSet d p (rt * (1 + fv))) p = some (rt * (1 + fv)) := by
    simp [dictSet]
  simp [updateOnePair, pairWrites, applyWrites, h]

/-- The refresh loop is exactly the application of its program-order write
sequence to the live table. -/
lemma loop_as_writes (prs : List (PyStr × ℚ)) :
    ∀ (d : PyStr → Option ℚ) (fs : ℕ → ℚ),
      updateRatesLoop d prs fs = applyWrites d (writeSeqLoop prs fs) := by
  induction prs with
  | nil => intro d fs; rfl
  | cons pr rest ih =>
    intro d fs
    cases pr with
    | mk p rt =>
      show updateRatesLoop (updateOnePair d p rt (fs 0)) rest (fun n => fs (n + 1))
          = applyWrites d (pairWrites p rt (fs 0) ++ writeSeqLoop rest (fun n => fs (n + 1)))
      rw [applyWrites_append, ← updateOnePair_as_writes, ih]

/-- C3 counterexample: one store into the `_update_rates` loop (starting
from the never-refreshed empty table), the live table already holds the
forward `USD_EUR` entry while its reciprocal `EUR_USD` is still absent —
a mid-refresh reader sees a table that is neither empty nor a consistent
snapshot, because the source mutates the live dict element-by-element
instead of swapping in a privately built table. -/
theorem C3_counterexample :
    applyWrites (fun _ => none) ((writeSeqLoop baseRates (fun _ => 0)).take 1)
        (mkKey ("USD".data) ("EUR".data)) = some ((85/100) * (1 + 0)) ∧
    applyWrites (fun _ => none) ((writeSeqLoop baseRates (fun _ => 0)).take 1)
        (mkKey ("EUR".data) ("USD".data)) = none :=
  ⟨rfl, rfl⟩

/-- C3 amended: the refresh mutates the live table in place — it is
exactly the program-order sequence of twelve stores — and there is a
mid-refresh prefix of those stores whose table holds a forward pair
without its reciprocal; only after all stores does `_update_rates` set the
timestamp (see `updateRates`). -/
theorem C3_inplace_mutation :
    (∀ (d : PyStr → Option ℚ) (fs : ℕ → ℚ),
      updateRatesLoop d baseRates fs = applyWrites d (writeSeqLoop baseRates fs)) ∧
    (∃ n, applyWrites (fun _ => none) ((writeSeqLoop baseRates (fun _ => 0)).take n)
          (mkKey ("USD".data) ("EUR".data)) ≠ none ∧
        applyWrites (fun _ => none) ((writeSeqLoop baseRates (fun _ => 0)).take n)
          (mkKey ("EUR".data) ("USD".data)) = none) := by
  refine ⟨fun d fs => loop_as_writes baseRates d fs, ⟨1, ?_, rfl⟩⟩
  rw [show applyWrites (fun _ => none) ((writeSeqLoop baseRates (fun _ => 0)).take 1)
      (mkKey ("USD".data) ("EUR".data)) = some ((85/100) * (1 + 0)) from rfl]
  simp
